import Mathlib

/-!
Verification of the pyrainbird irrigation-controller library: the tunnelSip
command codec (`pyrainbird/rainbird.py`), the bitmask state decoding
(`pyrainbird/data.py`), the schedule collection pass
(`pyrainbird/async_client.py`) and the recurrence model
(`pyrainbird/data.py`, `pyrainbird/timeline.py`).

Wire strings are modelled as lists of hex-nibble values: one `Nat` in
`0..15` per hex character of the Python string.
-/

namespace PyRainbird

/-- Value of a big-endian list of hex nibbles, as computed by Python
`int(s, 16)` on the corresponding hex string. -/
def digitsToNat (ds : List Nat) : Nat :=
  ds.foldl (fun a d => 16 * a + d) 0

/-- Value of a list of decimal digits, as computed by Python `int(s)`;
`none` when the string is empty or a character is not a decimal digit
(Python raises `ValueError`). -/
def decDigitsToNat (ds : List Nat) : Option Nat :=
  if ds = [] ∨ ds.any (fun d => 10 ≤ d) then none
  else some (ds.foldl (fun a d => 10 * a + d) 0)

/-! ## `States` (data.py)

`States.__init__` consumes the mask two hex characters at a time
(`current = int(rest[:2], 16); rest = rest[2:]`); each chunk contributes
eight booleans `bool((1 << i) & current)` for `i = 0..7`, least-significant
bit first. A trailing single character forms its own chunk. -/

/-- The `states` tuple built by `States.__init__`. -/
def statesBits : List Nat → List Bool
  | [] => []
  | [d] => (List.range 8).map fun i => (digitsToNat [d]).testBit i
  | d₁ :: d₂ :: rest =>
    ((List.range 8).map fun i => (digitsToNat [d₁, d₂]).testBit i) ++ statesBits rest

/-- Python list indexing `l[i]` with a possibly negative index; `none`
models an `IndexError`. -/
def pyGet (l : List Bool) (i : Int) : Option Bool :=
  if 0 ≤ i then l[i.toNat]?
  else if (l.length : Int) + i < 0 then none
  else l[((l.length : Int) + i).toNat]?

/-- `States.active` (data.py): `False` when `number > len(self.states)`,
otherwise `self.states[number - 1]`. -/
def States.active (mask : List Nat) (number : Int) : Option Bool :=
  let states := statesBits mask
  if number > (states.length : Int) then some false
  else pyGet states (number - 1)

/-- `States.active_set` (data.py): the zone numbers in `1..32` whose state
is active, in increasing order. -/
def States.activeSet (mask : List Nat) : List Nat :=
  (List.range' 1 32).filter fun n => States.active mask (n : Int) == some true

/-- Byte `k` of a hex mask: the value of hex characters `2k, 2k+1` (the
final byte of an odd-length mask is its single trailing character). -/
def maskByte (mask : List Nat) (k : Nat) : Nat :=
  digitsToNat ((mask.drop (2 * k)).take 2)

/-! ## Command codec (rainbird.py)

The command registry (`resources/sipcommands.yaml`) is an external data
asset loaded verbatim; templates are modelled as explicit values and the
registry as a list searched by wire code, mirroring
`RAINBIRD_COMMANDS_BY_ID`. -/

/-- One named field of a command template: hex-nibble position and length. -/
structure FieldSpec where
  name : String
  position : Nat
  length : Nat
deriving DecidableEq

/-- Decoder selected by the template's `decoder` entry (`DECODERS`). -/
inductive DecoderKind
  | defaultTemplate
  | schedule
deriving DecidableEq

/-- One entry of the command registry: wire code (two hex characters),
logical type name (the yaml key), total payload length in bytes, whether
the template uses the old-style scalar `parameter`/`parameterOne` keys,
the named fields in declaration order, and the decoder kind. -/
structure CommandTemplate where
  code : List Nat
  type : String
  length : Option Nat
  scalarParameter : Bool
  fields : List FieldSpec
  decoder : DecoderKind
deriving DecidableEq

/-- Minimal big-endian hex digits of `n` (Python `"%X" % n`), driven by a
fuel argument so that it is structurally recursive; `hexRepr` supplies
enough fuel for the recursion `n → n / 16` to bottom out. -/
def hexReprAux : Nat → Nat → List Nat
  | 0, n => [n % 16]
  | fuel + 1, n => if n < 16 then [n] else hexReprAux fuel (n / 16) ++ [n % 16]

/-- Minimal big-endian hex digits of `n` (Python `"%X" % n`). -/
def hexRepr (n : Nat) : List Nat := hexReprAux n n

/-- Python `"%0wX" % n`: zero-pad to width `w` on the left, but never
truncate — a value too wide for `w` keeps all of its digits. -/
def pyHexFmt (w n : Nat) : List Nat :=
  List.replicate (w - (hexRepr n).length) 0 ++ hexRepr n

/-- `data[start : start+len] = seg` splicing of `encode_command`'s field
mode: `data[:start] + seg + data[start+len:]`. -/
def spliceAt (buf : List Nat) (start len : Nat) (seg : List Nat) : List Nat :=
  buf.take start ++ seg ++ buf.drop (start + len)

/-- `data[p : p + n]` as a digit list. -/
def slice (data : List Nat) (p n : Nat) : List Nat :=
  (data.drop p).take n

/-- Error cases of `encode_command`: the `RainbirdCodingException`s for a
missing (or zero, hence falsy) length and for too many arguments, plus the
`IndexError` of `args_list.pop(0)` on an exhausted argument list. -/
inductive EncodeErr
  | missingLength
  | tooManyArguments
  | missingArgument
deriving DecidableEq

/-- The field loop of `encode_command`: for each non-reserved field in
declaration order, consume the next argument, format it to the field's
declared nibble width and splice it in at the field's position. -/
def encodeFields (buf : List Nat) :
    List FieldSpec → List Nat → Except EncodeErr (List Nat)
  | [], _ => .ok buf
  | _ :: _, [] => .error .missingArgument
  | f :: fs, a :: as =>
    encodeFields (spliceAt buf f.position f.length (pyHexFmt f.length a)) fs as

/-- `encode_command` (rainbird.py). A missing `length` key and a zero
length are both falsy in `if not (length := command_set.get(LENGTH))`. -/
def encode_command (t : CommandTemplate) (args : List Nat) :
    Except EncodeErr (List Nat) :=
  let length := t.length.getD 0
  if length = 0 then .error .missingLength
  else if args.length > length then .error .tooManyArguments
  else if length = 1 ∨ t.scalarParameter then
    .ok (t.code ++ (match args with
      | [] => []
      | a :: rest => pyHexFmt ((length - args.length) * 2) a ++ (rest.map (pyHexFmt 2)).flatten))
  else
    encodeFields (t.code ++ List.replicate ((length - 1) * 2) 0) t.fields args

/-- The pure result of `encode_command`'s field loop when every field finds
an argument: a left fold of splices over the zero-filled buffer. -/
def encodeFoldPure (buf : List Nat) (pairs : List (FieldSpec × Nat)) : List Nat :=
  pairs.foldl (fun b q => spliceAt b q.1.position q.1.length (pyHexFmt q.1.length q.2)) buf

/-- Well-formedness of one field/argument pair against a buffer: positive
width, field inside the buffer, and argument fitting the width. -/
def GoodPair (buflen : Nat) (q : FieldSpec × Nat) : Prop :=
  1 ≤ q.1.length ∧ q.1.position + q.1.length ≤ buflen ∧ q.2 < 16 ^ q.1.length

/-- `decode_template` (rainbird.py): read every field with a truthy
position and length as an unsigned hex integer, in declaration order;
`none` models the `ValueError` of `int("", 16)` on an empty slice. -/
def decode_template (data : List Nat) :
    List FieldSpec → Option (List (String × Nat))
  | [] => some []
  | f :: fs =>
    if f.position ≠ 0 ∧ f.length ≠ 0 then
      if slice data f.position f.length = [] then none
      else
        (decode_template data fs).map
          (fun r => (f.name, digitsToNat (slice data f.position f.length)) :: r)
    else decode_template data fs

/-- One decoded schedule sub-message of `decode_schedule`. -/
inductive ScheduleFragment
  | controllerInfo (stationDelay rainDelay rainSensor : Nat)
  | programInfo
      (program daysOfWeekMask period synchro permanentDaysOff reserved frequency : Nat)
  | programStartInfo (program : Nat) (startTime : List Nat)
  | durations (zoneA : Nat) (durationsA : List Nat) (zoneB : Nat) (durationsB : List Nat)
  | rawData (data : List Nat)
deriving DecidableEq

/-- `[int(rest[i:i+w], 16) for i in range(0, len(rest), w)]`, driven by a
fuel argument so that it is structurally recursive (`hexChunks` supplies
`l.length`, enough since each step drops at least one character). -/
def hexChunksAux : Nat → Nat → List Nat → List Nat
  | _, _, [] => []
  | 0, _, _ => []
  | fuel + 1, w, l =>
    if w = 0 then [] else digitsToNat (l.take w) :: hexChunksAux fuel w (l.drop w)

/-- Split into `w`-character chunks, each read as a hex integer. -/
def hexChunks (w : Nat) (l : List Nat) : List Nat := hexChunksAux l.length w l

/-- `decode_schedule` (rainbird.py): dispatch on the one-byte sub-command
at offset 4 — exactly zero, then the `0x10` program-info mask, then the
`0x60` start-times mask, then the `0x80` zone-durations mask; the low bits
left after removing the matched mask give the program/station index.
`none` models the `ValueError`/`IndexError` paths (short data, non-decimal
delay digits, fewer than six program-info fields). -/
def decode_schedule (data : List Nat) : Option ScheduleFragment :=
  if slice data 4 2 = [] then none
  else
    let subcommand := digitsToNat (slice data 4 2)
    let rest := data.drop 6
    if subcommand = 0 then
      match decDigitsToNat (slice rest 0 4), decDigitsToNat (slice rest 4 2),
          decDigitsToNat (slice rest 6 2) with
      | some sd, some rd, some rs => some (.controllerInfo sd rd rs)
      | _, _, _ => none
    else if subcommand &&& 16 = 16 then
      match hexChunks 2 rest with
      | f0 :: f1 :: f2 :: f3 :: f4 :: f5 :: _ =>
        some (.programInfo (subcommand - 16) f0 f1 f2 f3 f4 f5)
      | _ => none
    else if subcommand &&& 96 = 96 then
      some (.programStartInfo (subcommand - 96) (hexChunks 4 rest))
    else if subcommand &&& 128 = 128 then
      let durs := hexChunks 4 rest
      let numPrograms := durs.length / 2
      some (.durations ((subcommand - 128) * 2) (durs.take numPrograms)
        ((subcommand - 128) * 2 + 1) ((durs.drop numPrograms).take numPrograms))
    else some (.rawData data)

/-- The dictionary returned by `decode`, with the `"type"` entry explicit:
`typeTag = none` means the result carries no `type` key at all. -/
structure DecodedMessage where
  typeTag : Option String
  fields : List (String × Nat)
  fragment : Option ScheduleFragment
  rawData : Option (List Nat)
deriving DecidableEq

/-- `RAINBIRD_COMMANDS_BY_ID` lookup: find the template whose wire code
matches. -/
def lookupByCode (registry : List CommandTemplate) (code : List Nat) :
    Option CommandTemplate :=
  registry.find? (fun t => t.code == code)

/-- `decode` (rainbird.py): read the first two hex characters as the
response code; unregistered codes yield `{"data": data}` (no `type` key);
registered codes run the template's decoder and tag the result with the
template's logical type name. -/
def decode (registry : List CommandTemplate) (data : List Nat) :
    Option DecodedMessage :=
  match lookupByCode registry (data.take 2) with
  | none => some ⟨none, [], none, some data⟩
  | some t =>
    match t.decoder with
    | .defaultTemplate =>
      (decode_template data t.fields).map fun fs => ⟨some t.type, fs, none, none⟩
    | .schedule =>
      (decode_schedule data).map fun fr => ⟨some t.type, [], some fr, none⟩

/-! ## Schedule collection (async_client.py) -/

/-- Python `int(round(n / 2, 0))` on a nonnegative integer `n`: the exact
half when `n` is even, and round-half-to-even otherwise. -/
def roundHalfDiv2 (n : Nat) : Nat :=
  if n % 2 = 0 then n / 2
  else if (n / 2) % 2 = 0 then n / 2 else n / 2 + 1

/-- `AsyncRainbirdController.get_schedule` (async_client.py): the ordered
list of `RetrieveScheduleRequest` sub-command codes issued in one
schedule-collection pass — the controller-settings request `"00"`, then
`0x10 | program` per program, then `0x60 | program` per program, then
`0x80 | zone_page` for `int(round(max_stations / 2, 0))` zone pages. The
requests are sent serially in list order. -/
def scheduleCommands (maxPrograms maxStations : Nat) : List Nat :=
  [0] ++ (List.range maxPrograms).map (fun program => 16 ||| program)
    ++ (List.range maxPrograms).map (fun program => 96 ||| program)
    ++ (List.range (roundHalfDiv2 maxStations)).map (fun zonePage => 128 ||| zonePage)

/-! ## Program model (data.py, const.py) -/

/-- `ProgramFrequency` (const.py). -/
inductive ProgramFrequency
  | CUSTOM
  | CYCLIC
  | ODD
  | EVEN
deriving DecidableEq

/-- `DayOfWeek` (const.py). -/
inductive DayOfWeek
  | SUNDAY
  | MONDAY
  | TUESDAY
  | WEDNESDAY
  | THURSDAY
  | FRIDAY
  | SATURDAY
deriving DecidableEq

/-- `ControllerInfo` (data.py). -/
structure ControllerInfo where
  stationDelay : Nat
  rainDelay : Nat
  rainSensor : Bool
deriving DecidableEq

/-- `ControllerInfo.delay_days` (data.py): `max(station_delay, rain_delay)`. -/
def ControllerInfo.delayDays (ci : ControllerInfo) : Nat :=
  max ci.stationDelay ci.rainDelay

/-- `Program` (data.py). Start times are minutes of the day; durations are
`(zone, minutes)` pairs. -/
structure Program where
  program : Nat
  frequency : ProgramFrequency
  daysOfWeek : List DayOfWeek
  period : Option Nat
  synchro : Option Nat
  starts : List Nat
  durations : List (Nat × Nat)
  controllerInfo : Option ControllerInfo
deriving DecidableEq

/-- `Program.delay_days` (data.py): the controller info's delay days, or 0
when absent. -/
def Program.delayDays (p : Program) : Nat :=
  match p.controllerInfo with
  | some ci => ci.delayDays
  | none => 0

/-- `Program.duration` (data.py): total run duration over all zones. -/
def Program.duration (p : Program) : Nat :=
  (p.durations.map Prod.snd).sum

/-- `Program.__post_init__` (data.py): clear `days_of_week` unless the
frequency is `CUSTOM`, clear `period` unless it is `CYCLIC`. Runs exactly
once, when the dataclass is constructed. -/
def postInit (p : Program) : Program :=
  let p1 := if p.frequency ≠ ProgramFrequency.CUSTOM then { p with daysOfWeek := [] } else p
  if p1.frequency ≠ ProgramFrequency.CYCLIC then { p1 with period := none } else p1

/-! ## Timeline (timespan.py, timeline.py)

Date-times are modelled as minutes since an epoch. -/

/-- `Timespan` (timespan.py). -/
structure Timespan where
  start : Nat
  stop : Nat
deriving DecidableEq

/-- `Timespan.intersects` (timespan.py), as `self.intersects(other)`. -/
def Timespan.intersects (self other : Timespan) : Prop :=
  (other.start ≤ self.start ∧ self.start < other.stop)
  ∨ (other.start < self.stop ∧ self.stop ≤ other.stop)
  ∨ (self.start ≤ other.start ∧ other.start < self.stop)
  ∨ (self.start < other.stop ∧ other.stop ≤ self.stop)

instance (a b : Timespan) : Decidable (a.intersects b) := by
  unfold Timespan.intersects
  infer_instance

/-- `Timespan.__gt__` (timespan.py): lexicographic on `(start, end)`. -/
def Timespan.gtLex (self other : Timespan) : Prop :=
  other.start < self.start ∨ (self.start = other.start ∧ other.stop < self.stop)

instance (a b : Timespan) : Decidable (a.gtLex b) := by
  unfold Timespan.gtLex
  infer_instance

/-- `ProgramTimeline.overlapping` (timeline.py) over an explicit merged
event list: yield events that intersect the query span, and stop at the
first event that neither intersects nor compares `<=` to it. -/
def overlapping (events : List Timespan) (qstart qstop : Nat) : List Timespan :=
  match events with
  | [] => []
  | e :: rest =>
    if e.intersects ⟨qstart, qstop⟩ then e :: overlapping rest qstart qstop
    else if e.gtLex ⟨qstart, qstop⟩ then []
    else overlapping rest qstart qstop

/-! ## Recurrence (data.py, timeline.py) -/

/-- The calendar date (day number) of a minute timestamp. -/
def dateOf (t : Nat) : Nat := t / 1440

/-- `ProgramEvent`: one concrete occurrence, tagged by program (and
optionally zone). -/
structure ProgramEvent where
  programId : Nat
  zone : Option Nat
  start : Nat
  stop : Nat
deriving DecidableEq

/-- Modelled from the spec: `create_recurrence`, which `data.py` imports
from `timeline.py` but which is absent from the source tree's
`timeline.py` (an older revision whose recurrence builders take no delay
argument). Per spec §4.5, every rule type excludes the literal anchor
instant (the rrule seed, `ruleset.exdate(dtstart)`) and the first
`delayDays` calendar days from the anchor; each remaining rrule occurrence
becomes one event spanning `duration`. The rrule's occurrence stream is
supplied as an explicit list. -/
def create_recurrence (programId : Nat) (zone : Option Nat) (ruleDates : List Nat)
    (dtstart : Nat) (duration : Nat) (delayDays : Nat) : List ProgramEvent :=
  (ruleDates.filter fun t => decide (t ≠ dtstart
      ∧ ¬(dateOf dtstart ≤ dateOf t ∧ dateOf t < dateOf dtstart + delayDays))).map
    fun t => ⟨programId, zone, t, t + duration⟩

/-- `Program.timeline_tz` (data.py): one recurrence per entry of `starts`,
each anchored at today's date (`now.replace(hour=start.hour,
minute=start.minute, second=0)`) with the program's total duration and
`delay_days`; `rules` supplies the rrule occurrence list for an anchor. -/
def Program.timeline (p : Program) (now : Nat) (rules : Nat → List Nat) :
    List ProgramEvent :=
  (p.starts.map fun start =>
      create_recurrence p.program none (rules ((now / 1440) * 1440 + start))
        ((now / 1440) * 1440 + start) p.duration p.delayDays).flatten

/-! ## Concrete data for the scenario claims -/

/-- Hex-character list for the mask `"00381000"` carried in the
`CurrentStationsActiveResponse` wire string `"BF0000381000"` (the response
code `BF` and page `00` precede the 8-character mask). -/
def demoMask : List Nat := [0, 0, 3, 8, 1, 0, 0, 0]

/-- Hex-character list of the wire string `"A0006000F0FFFFFFFFFFFF"`. -/
def wireA06 : List Nat :=
  [10, 0, 0, 0, 6, 0, 0, 0, 15, 0, 15, 15, 15, 15, 15, 15, 15, 15, 15, 15, 15, 15]

/-- Hex-character list of the wire string `"F100000000"`. -/
def wireF1 : List Nat := [15, 1, 0, 0, 0, 0, 0, 0, 0, 0]

/-- Hex-character list of the controller-settings response
`"A0000000000400"`. -/
def wireA00 : List Nat := [10, 0, 0, 0, 0, 0, 0, 0, 0, 0, 0, 4, 0, 0]

/-- The schedule response template (`"A0"`, `RetrieveScheduleResponse`). -/
def demoTemplateA0 : CommandTemplate :=
  { code := [10, 0], type := "RetrieveScheduleResponse", length := some 11,
    scalarParameter := false, fields := [], decoder := DecoderKind.schedule }

/-- A registry holding only the schedule response template, used for
concrete decoding scenarios; `"F1"` is not registered. -/
def demoRegistry : List CommandTemplate := [demoTemplateA0]

/-- Whether a decoded schedule fragment is a `controllerInfo` fragment. -/
def isControllerInfoFrag : Option ScheduleFragment → Bool
  | some (ScheduleFragment.controllerInfo _ _ _) => true
  | _ => false

/-- A two-byte command template with one two-nibble field, used to exhibit
`encode_command`'s behaviour on an oversized argument. -/
def overflowTemplate : CommandTemplate :=
  { code := [0, 1], type := "OverflowDemo", length := some 2,
    scalarParameter := false, fields := [{ name := "f", position := 2, length := 2 }],
    decoder := DecoderKind.defaultTemplate }

/-- A symmetric two-field template (code `"12"`, one byte of payload per
field) together with its singleton registry, used to witness the
round-trip theorem. -/
def roundtripTemplate : CommandTemplate :=
  { code := [1, 2], type := "RoundtripDemo", length := some 3,
    scalarParameter := false,
    fields := [{ name := "alpha", position := 2, length := 2 },
               { name := "beta", position := 4, length := 2 }],
    decoder := DecoderKind.defaultTemplate }

/-- Event list (merged timeline) refuting the start-sorted range-query
claim: non-decreasing in start time, but not lexicographically sorted. -/
def demoEvents : List Timespan := [⟨10, 11⟩, ⟨10, 10⟩]

/-- An `ODD`-frequency program whose pre-construction dict carries stale
`daysOfWeek` and `period` values. -/
def demoProgramODD : Program :=
  ⟨1, ProgramFrequency.ODD, [DayOfWeek.MONDAY], some 4, none, [], [], none⟩

theorem statesBits_length (mask : List Nat) :
    (statesBits mask).length = 8 * ((mask.length + 1) / 2) := by
  match mask with
  | [] => simp [statesBits]
  | [d] => simp [statesBits]
  | d₁ :: d₂ :: rest =>
    have ih := statesBits_length rest
    simp only [statesBits, List.length_append, List.length_map, List.length_range,
      List.length_cons, ih]
    omega

theorem statesBits_getElem? (mask : List Nat) (j i : Nat) (hi : i < 8)
    (hj : 2 * j < mask.length) :
    (statesBits mask)[8 * j + i]? = some ((maskByte mask j).testBit i) := by
  induction j generalizing mask with
  | zero =>
    match mask with
    | [] => simp at hj
    | [d] =>
      show ((List.range 8).map fun i => (digitsToNat [d]).testBit i)[8 * 0 + i]?
        = some ((maskByte [d] 0).testBit i)
      rw [Nat.mul_zero, Nat.zero_add, List.getElem?_map, List.getElem?_range hi]
      rfl
    | d₁ :: d₂ :: rest =>
      show (((List.range 8).map fun i => (digitsToNat [d₁, d₂]).testBit i)
          ++ statesBits rest)[8 * 0 + i]?
        = some ((maskByte (d₁ :: d₂ :: rest) 0).testBit i)
      rw [Nat.mul_zero, Nat.zero_add, List.getElem?_append_left (by simpa using hi),
        List.getElem?_map, List.getElem?_range hi]
      rfl
  | succ j ih =>
    match mask with
    | [] => simp at hj
    | [d] => simp at hj
    | d₁ :: d₂ :: rest =>
      have hlen : 2 * j < rest.length := by simp at hj; omega
      show (((List.range 8).map fun i => (digitsToNat [d₁, d₂]).testBit i)
          ++ statesBits rest)[8 * (j + 1) + i]?
        = some ((maskByte (d₁ :: d₂ :: rest) (j + 1)).testBit i)
      rw [List.getElem?_append_right (by simp; omega)]
      have harith : 8 * (j + 1) + i - ((List.range 8).map
          (fun i => (digitsToNat [d₁, d₂]).testBit i)).length = 8 * j + i := by
        simp; omega
      rw [harith, ih rest hlen]
      have hmb : maskByte rest j = maskByte (d₁ :: d₂ :: rest) (j + 1) := by
        have h2 : (d₁ :: d₂ :: rest).drop (2 * (j + 1)) = rest.drop (2 * j) := by
          have h3 : rest.drop (2 * j) = ((d₁ :: d₂ :: rest).drop 2).drop (2 * j) := rfl
          rw [h3, List.drop_drop]
          congr 1
          omega
        rw [maskByte, maskByte, h2]
      rw [hmb]

/-- C2: for every hex mask string and every `n` in `1..len(mask)*4`,
`States(mask).active(n)` equals bit `(n-1) mod 8` of byte `(n-1) div 8` of
the mask, bits LSB-first within each byte; and the active-zone set decoded
from the mask in response `"BF0000381000"` is exactly `{12, 13, 14, 21}`. -/
theorem states_active_bitmask_law :
    (∀ (mask : List Nat) (n : Nat), 1 ≤ n → n ≤ mask.length * 4 →
      States.active mask (n : Int)
        = some ((maskByte mask ((n - 1) / 8)).testBit ((n - 1) % 8))) ∧
    States.activeSet demoMask = [12, 13, 14, 21] := by
  constructor
  · intro mask n h1 h2
    have hlen := statesBits_length mask
    have hle : n ≤ (statesBits mask).length := by omega
    rw [States.active]
    rw [if_neg (by omega), pyGet, if_pos (by omega)]
    have ht : ((n : Int) - 1).toNat = n - 1 := by omega
    rw [ht]
    have hsplit : n - 1 = 8 * ((n - 1) / 8) + (n - 1) % 8 :=
      (Nat.div_add_mod (n - 1) 8).symm
    have hget := statesBits_getElem? mask ((n - 1) / 8) ((n - 1) % 8)
      (Nat.mod_lt _ (by omega)) (by omega)
    rw [← hsplit] at hget
    exact hget
  · rfl

/-- Witness for `states_active_bitmask_law` at mask `"00381000"`, `n = 12`:
zone 12 is bit 3 of byte 1 (`0x38`), which is set. -/
theorem states_active_bitmask_law_witness :
    States.active demoMask ((12 : Nat) : Int)
      = some ((maskByte demoMask ((12 - 1) / 8)).testBit ((12 - 1) % 8)) :=
  states_active_bitmask_law.1 demoMask 12 (by omega) (by decide)

/-- C10: for a `States` built from a non-empty mask, `active(n)` returns
`False` (without raising) for every `n` beyond the `len(mask)*4` decoded
bits, while `active(0)` reads `states[-1]`, the last decoded bit. -/
theorem states_active_out_of_range (mask : List Nat) (hne : mask ≠ [])
    (hdig : ∀ d ∈ mask, d < 16) :
    (∀ n : Nat, mask.length * 4 < n → States.active mask (n : Int) = some false) ∧
    States.active mask 0 = (statesBits mask).getLast? := by
  have hlen := statesBits_length mask
  have hpos : 1 ≤ mask.length := List.length_pos.mpr hne
  have hbits : 8 ≤ (statesBits mask).length := by omega
  constructor
  · intro n hn
    by_cases hcase : (statesBits mask).length < n
    · rw [States.active]
      rw [if_pos (by omega)]
    · rw [States.active]
      rw [if_neg (by omega), pyGet, if_pos (by omega)]
      have ht : ((n : Int) - 1).toNat = n - 1 := by omega
      rw [ht]
      have hsplit : n - 1 = 8 * ((n - 1) / 8) + (n - 1) % 8 :=
        (Nat.div_add_mod (n - 1) 8).symm
      have hget := statesBits_getElem? mask ((n - 1) / 8) ((n - 1) % 8)
        (Nat.mod_lt _ (by omega)) (by omega)
      rw [← hsplit] at hget
      rw [hget]
      have hone : (mask.drop (2 * ((n - 1) / 8))).length = 1 := by
        rw [List.length_drop]
        omega
      obtain ⟨d, hd⟩ := List.length_eq_one.mp hone
      have hdm : d ∈ mask := List.mem_of_mem_drop (hd ▸ List.mem_singleton_self d)
      have hbyte : maskByte mask ((n - 1) / 8) = d := by
        have htake : List.take 2 [d] = [d] := rfl
        rw [maskByte, hd, htake]
        simp [digitsToNat]
      have hfalse : d.testBit ((n - 1) % 8) = false := by
        apply Nat.testBit_lt_two_pow
        calc d < 16 := hdig d hdm
        _ = 2 ^ 4 := by norm_num
        _ ≤ 2 ^ ((n - 1) % 8) := Nat.pow_le_pow_right (by norm_num) (by omega)
      rw [hbyte, hfalse]
  · rw [States.active]
    rw [if_neg (by omega), pyGet, if_neg (by omega), if_neg (by omega)]
    have ht : ((((statesBits mask).length : Int)) + (0 - 1)).toNat
        = (statesBits mask).length - 1 := by omega
    rw [ht, List.getLast?_eq_getElem?]

/-- Witness for `states_active_out_of_range` at mask `"80"`: `n = 9` is past
the 8 decoded bits and reads `False`; `active(0)` reads the last decoded
bit, which is bit 7 of `0x80`. -/
theorem states_active_out_of_range_witness :
    States.active [8, 0] ((9 : Nat) : Int) = some false ∧
    States.active [8, 0] 0 = (statesBits [8, 0]).getLast? :=
  ⟨(states_active_out_of_range [8, 0] (by decide) (by decide)).1 9 (by decide),
   (states_active_out_of_range [8, 0] (by decide) (by decide)).2⟩

/-! ## Hex formatting lemmas -/

theorem digitsToNat_append_singleton (l : List Nat) (d : Nat) :
    digitsToNat (l ++ [d]) = 16 * digitsToNat l + d := by
  simp [digitsToNat, List.foldl_append]

theorem digitsToNat_replicate_zero (k : Nat) (l : List Nat) :
    digitsToNat (List.replicate k 0 ++ l) = digitsToNat l := by
  induction k with
  | zero => simp
  | succ k ih => simpa [digitsToNat, List.replicate_succ] using ih

theorem hexReprAux_digitsToNat (fuel n : Nat) (h : n ≤ fuel) :
    digitsToNat (hexReprAux fuel n) = n := by
  induction fuel generalizing n with
  | zero =>
    have hz : n = 0 := by omega
    subst hz
    simp [hexReprAux, digitsToNat]
  | succ fuel ih =>
    rw [hexReprAux]
    split
    · simp [digitsToNat]
    · rename_i hge
      rw [digitsToNat_append_singleton, ih (n / 16) (by omega)]
      omega

theorem digitsToNat_hexRepr (n : Nat) : digitsToNat (hexRepr n) = n :=
  hexReprAux_digitsToNat n n le_rfl

theorem hexReprAux_length_le (fuel n w : Nat) (h : n ≤ fuel) (hw : 1 ≤ w)
    (hn : n < 16 ^ w) : (hexReprAux fuel n).length ≤ w := by
  induction fuel generalizing n w with
  | zero => simp [hexReprAux]; omega
  | succ fuel ih =>
    rw [hexReprAux]
    split
    · simpa using hw
    · rename_i hge
      push_neg at hge
      have hw2 : 2 ≤ w := by
        by_contra hc
        have hw1 : w = 1 := by omega
        subst hw1
        norm_num at hn
        omega
      have h16 : (16 : Nat) ^ w = 16 ^ (w - 1) * 16 := by
        have hww : w - 1 + 1 = w := by omega
        rw [← hww, pow_succ, hww]
      have hdiv : n / 16 < 16 ^ (w - 1) := by
        rw [h16] at hn
        exact (Nat.div_lt_iff_lt_mul (by norm_num)).mpr hn
      have hrec := ih (n / 16) (w - 1) (by omega) (by omega) hdiv
      simp only [List.length_append, List.length_cons, List.length_nil]
      omega

theorem hexReprAux_length_pos (fuel n : Nat) : 1 ≤ (hexReprAux fuel n).length := by
  cases fuel with
  | zero => simp [hexReprAux]
  | succ fuel =>
    rw [hexReprAux]
    split
    · simp
    · simp

theorem pyHexFmt_digitsToNat (w n : Nat) : digitsToNat (pyHexFmt w n) = n := by
  rw [pyHexFmt, digitsToNat_replicate_zero, digitsToNat_hexRepr]

theorem pyHexFmt_length (w n : Nat) (hw : 1 ≤ w) (hn : n < 16 ^ w) :
    (pyHexFmt w n).length = w := by
  have h1 := hexReprAux_length_le n n w le_rfl hw hn
  rw [pyHexFmt]
  rw [List.length_append, List.length_replicate]
  rw [hexRepr] at *
  omega

/-! ## Slice and splice lemmas -/

theorem slice_getElem? (data : List Nat) (p n i : Nat) :
    (slice data p n)[i]? = if i < n then data[p + i]? else none := by
  rw [slice, List.getElem?_take]
  split
  · rw [List.getElem?_drop]
  · rfl

theorem slice_length_of_le (data : List Nat) (p n : Nat) (h : p + n ≤ data.length) :
    (slice data p n).length = n := by
  simp [slice]
  omega

theorem spliceAt_length (buf : List Nat) (p l : Nat) (seg : List Nat)
    (hseg : seg.length = l) (hle : p + l ≤ buf.length) :
    (spliceAt buf p l seg).length = buf.length := by
  simp [spliceAt]
  omega

theorem spliceAt_getElem? (buf : List Nat) (p l : Nat) (seg : List Nat)
    (hseg : seg.length = l) (hle : p + l ≤ buf.length) (j : Nat) :
    (spliceAt buf p l seg)[j]?
      = if p ≤ j ∧ j < p + l then seg[j - p]? else buf[j]? := by
  have htl : (buf.take p).length = p := by simp; omega
  have htsl : (buf.take p ++ seg).length = p + l := by simp; omega
  rw [spliceAt]
  by_cases h1 : j < p
  · rw [if_neg (by omega), List.getElem?_append_left (by omega),
      List.getElem?_append_left (by omega), List.getElem?_take, if_pos h1]
  · by_cases h2 : j < p + l
    · rw [if_pos ⟨by omega, h2⟩, List.getElem?_append_left (by omega),
        List.getElem?_append_right (by omega), htl]
    · rw [if_neg (by omega), List.getElem?_append_right (by omega), htsl,
        List.getElem?_drop]
      congr 1
      omega

theorem slice_congr (X Y : List Nat) (p n : Nat)
    (h : ∀ j, p ≤ j → j < p + n → X[j]? = Y[j]?) : slice X p n = slice Y p n := by
  apply List.ext_getElem?
  intro i
  rw [slice_getElem?, slice_getElem?]
  split
  · rename_i hin
    exact h (p + i) (by omega) (by omega)
  · rfl

theorem slice_spliceAt_self (buf : List Nat) (p l : Nat) (seg : List Nat)
    (hseg : seg.length = l) (hle : p + l ≤ buf.length) :
    slice (spliceAt buf p l seg) p l = seg := by
  apply List.ext_getElem?
  intro i
  rw [slice_getElem?, spliceAt_getElem? buf p l seg hseg hle]
  by_cases hi : i < l
  · rw [if_pos hi, if_pos ⟨by omega, by omega⟩]
    congr 1
    omega
  · rw [if_neg hi, eq_comm, List.getElem?_eq_none]
    omega

/-! ## Field loop lemmas -/

theorem encodeFields_eq_ok (fields : List FieldSpec) (args : List Nat) (buf : List Nat)
    (h : args.length = fields.length) :
    encodeFields buf fields args = .ok (encodeFoldPure buf (fields.zip args)) := by
  induction fields generalizing args buf with
  | nil =>
    cases args with
    | nil => rfl
    | cons a as => simp at h
  | cons f fs ih =>
    cases args with
    | nil => simp at h
    | cons a as =>
      show encodeFields (spliceAt buf f.position f.length (pyHexFmt f.length a)) fs as
        = .ok (encodeFoldPure buf ((f, a) :: fs.zip as))
      rw [ih as _ (by simpa using h)]
      rfl

theorem encodeFoldPure_length (pairs : List (FieldSpec × Nat)) (buf : List Nat)
    (hwf : ∀ q ∈ pairs, GoodPair buf.length q) :
    (encodeFoldPure buf pairs).length = buf.length := by
  induction pairs generalizing buf with
  | nil => rfl
  | cons q qs ih =>
    have hq := hwf q (List.mem_cons_self q qs)
    have hseg : (pyHexFmt q.1.length q.2).length = q.1.length :=
      pyHexFmt_length _ _ hq.1 hq.2.2
    have hsl := spliceAt_length buf q.1.position q.1.length _ hseg hq.2.1
    have hstep : encodeFoldPure buf (q :: qs)
        = encodeFoldPure (spliceAt buf q.1.position q.1.length (pyHexFmt q.1.length q.2)) qs :=
      rfl
    rw [hstep, ih _ (fun r hr => by rw [GoodPair, hsl]; exact hwf r (List.mem_cons_of_mem q hr)),
      hsl]

theorem encodeFoldPure_getElem?_outside (pairs : List (FieldSpec × Nat)) (buf : List Nat)
    (hwf : ∀ q ∈ pairs, GoodPair buf.length q) (j : Nat)
    (hout : ∀ q ∈ pairs, j < q.1.position ∨ q.1.position + q.1.length ≤ j) :
    (encodeFoldPure buf pairs)[j]? = buf[j]? := by
  induction pairs generalizing buf with
  | nil => rfl
  | cons q qs ih =>
    have hq := hwf q (List.mem_cons_self q qs)
    have hseg : (pyHexFmt q.1.length q.2).length = q.1.length :=
      pyHexFmt_length _ _ hq.1 hq.2.2
    have hsl := spliceAt_length buf q.1.position q.1.length _ hseg hq.2.1
    have hstep : encodeFoldPure buf (q :: qs)
        = encodeFoldPure (spliceAt buf q.1.position q.1.length (pyHexFmt q.1.length q.2)) qs :=
      rfl
    rw [hstep, ih _ (fun r hr => by rw [GoodPair, hsl]; exact hwf r (List.mem_cons_of_mem q hr))
      (fun r hr => hout r (List.mem_cons_of_mem q hr))]
    rw [spliceAt_getElem? buf _ _ _ hseg hq.2.1 j,
      if_neg (by have := hout q (List.mem_cons_self q qs); omega)]

theorem encodeFoldPure_slice (pairs : List (FieldSpec × Nat)) (buf : List Nat)
    (hwf : ∀ q ∈ pairs, GoodPair buf.length q)
    (hdisj : pairs.Pairwise (fun q r =>
      q.1.position + q.1.length ≤ r.1.position ∨ r.1.position + r.1.length ≤ q.1.position)) :
    ∀ q ∈ pairs, slice (encodeFoldPure buf pairs) q.1.position q.1.length
      = pyHexFmt q.1.length q.2 := by
  induction pairs generalizing buf with
  | nil => intro q hq; simp at hq
  | cons q qs ih =>
    intro r hr
    have hq := hwf q (List.mem_cons_self q qs)
    have hseg : (pyHexFmt q.1.length q.2).length = q.1.length :=
      pyHexFmt_length _ _ hq.1 hq.2.2
    have hsl := spliceAt_length buf q.1.position q.1.length _ hseg hq.2.1
    have hwf' : ∀ r ∈ qs,
        GoodPair (spliceAt buf q.1.position q.1.length (pyHexFmt q.1.length q.2)).length r :=
      fun r hr => by rw [GoodPair, hsl]; exact hwf r (List.mem_cons_of_mem q hr)
    have hdisjhead := (List.pairwise_cons.mp hdisj).1
    have hstep : encodeFoldPure buf (q :: qs)
        = encodeFoldPure (spliceAt buf q.1.position q.1.length (pyHexFmt q.1.length q.2)) qs :=
      rfl
    rcases List.mem_cons.mp hr with heq | hmem
    · subst heq
      rw [hstep]
      have hsc : slice (encodeFoldPure
            (spliceAt buf r.1.position r.1.length (pyHexFmt r.1.length r.2)) qs)
            r.1.position r.1.length
          = slice (spliceAt buf r.1.position r.1.length (pyHexFmt r.1.length r.2))
            r.1.position r.1.length := by
        apply slice_congr
        intro j hj1 hj2
        apply encodeFoldPure_getElem?_outside qs _ hwf' j
        intro s hs
        have := hdisjhead s hs
        omega
      rw [hsc, slice_spliceAt_self _ _ _ _ hseg hq.2.1]
    · rw [hstep]
      exact ih _ hwf' (List.pairwise_cons.mp hdisj).2 r hmem

theorem decode_template_of_slices (data : List Nat) (fields : List FieldSpec)
    (args : List Nat) (h : args.length = fields.length)
    (hgood : ∀ q ∈ fields.zip args, 1 ≤ q.1.length ∧ q.1.position ≠ 0
      ∧ slice data q.1.position q.1.length = pyHexFmt q.1.length q.2) :
    decode_template data fields
      = some ((fields.zip args).map fun q => (q.1.name, q.2)) := by
  induction fields generalizing args with
  | nil =>
    cases args with
    | nil => rfl
    | cons a as => simp at h
  | cons f fs ih =>
    cases args with
    | nil => simp at h
    | cons a as =>
      have hq := hgood (f, a) (List.mem_cons_self _ _)
      have hq1 : 1 ≤ f.length := hq.1
      have hq2 : f.position ≠ 0 := hq.2.1
      rw [decode_template, if_pos ⟨hq2, by omega⟩, hq.2.2]
      have hne : pyHexFmt f.length a ≠ [] := by
        apply List.ne_nil_of_length_pos
        rw [pyHexFmt, List.length_append]
        have := hexReprAux_length_pos a a
        rw [hexRepr]
        omega
      rw [if_neg hne, ih as (by simpa using h)
        (fun q hq' => hgood q (List.mem_cons_of_mem _ hq'))]
      simp [pyHexFmt_digitsToNat]

theorem pairwise_zip_left {α β : Type} {R : α → α → Prop} :
    ∀ (l : List α) (l' : List β), l.Pairwise R
      → (l.zip l').Pairwise (fun p q => R p.1 q.1) := by
  intro l
  induction l with
  | nil => intro l' _; simp
  | cons x xs ih =>
    intro l' h
    cases l' with
    | nil => simp
    | cons y ys =>
      rw [List.zip_cons_cons, List.pairwise_cons]
      rw [List.pairwise_cons] at h
      exact ⟨fun p hp => h.1 p.1 (List.of_mem_zip hp).1, ih ys h.2⟩

/-- C1: for every registered command with a symmetric field layout — named
fields with truthy nibble positions and lengths, pairwise disjoint, lying
inside the payload after the two-character wire code, decoded by the
default field decoder, and registered under the command's own wire code —
and for every list of unsigned integer arguments, one per declared
non-reserved field and each fitting its declared nibble width,
`decode(encode(command, args))` is a map whose type equals the command's
logical type name and whose named fields equal the supplied arguments. -/
theorem encode_decode_roundtrip
    (registry : List CommandTemplate) (t : CommandTemplate) (args : List Nat) (l : Nat)
    (hlen : t.length = some l) (hl2 : 2 ≤ l)
    (hsc : t.scalarParameter = false)
    (hdec : t.decoder = DecoderKind.defaultTemplate)
    (hcode : t.code.length = 2)
    (hfind : lookupByCode registry t.code = some t)
    (hargs : args.length = t.fields.length)
    (hargsle : args.length ≤ l)
    (hwf : ∀ f ∈ t.fields, 2 ≤ f.position ∧ 1 ≤ f.length ∧ f.position + f.length ≤ 2 * l)
    (hdisj : t.fields.Pairwise (fun f g =>
      f.position + f.length ≤ g.position ∨ g.position + g.length ≤ f.position))
    (hfit : ∀ q ∈ t.fields.zip args, q.2 < 16 ^ q.1.length) :
    ∃ wire, encode_command t args = .ok wire ∧
      decode registry wire = some
        ⟨some t.type, (t.fields.zip args).map fun q => (q.1.name, q.2), none, none⟩ := by
  have hbuf0len : (t.code ++ List.replicate ((l - 1) * 2) 0).length = 2 * l := by
    simp [hcode]
    omega
  have hzipmem : ∀ q ∈ t.fields.zip args, q.1 ∈ t.fields :=
    fun q hq => (List.of_mem_zip hq).1
  have hgoodpairs : ∀ q ∈ t.fields.zip args,
      GoodPair (t.code ++ List.replicate ((l - 1) * 2) 0).length q := by
    intro q hq
    have h1 := hwf q.1 (hzipmem q hq)
    have h2 := hfit q hq
    exact ⟨h1.2.1, by omega, h2⟩
  have hpairwise : (t.fields.zip args).Pairwise (fun q r =>
      q.1.position + q.1.length ≤ r.1.position
        ∨ r.1.position + r.1.length ≤ q.1.position) :=
    pairwise_zip_left t.fields args hdisj
  have henc : encode_command t args
      = .ok (encodeFoldPure (t.code ++ List.replicate ((l - 1) * 2) 0)
          (t.fields.zip args)) := by
    rw [encode_command.eq_def, hlen]
    simp only [Option.getD_some]
    rw [if_neg (by omega : ¬(l = 0)), if_neg (by omega : ¬(args.length > l)),
      if_neg (by rw [hsc]; simp; omega)]
    exact encodeFields_eq_ok t.fields args _ hargs
  refine ⟨_, henc, ?_⟩
  have hwirelen : (encodeFoldPure (t.code ++ List.replicate ((l - 1) * 2) 0)
      (t.fields.zip args)).length = 2 * l := by
    rw [encodeFoldPure_length _ _ hgoodpairs, hbuf0len]
  have hcodeslice : (encodeFoldPure (t.code ++ List.replicate ((l - 1) * 2) 0)
      (t.fields.zip args)).take 2 = t.code := by
    apply List.ext_getElem?
    intro i
    rw [List.getElem?_take]
    by_cases hi : i < 2
    · rw [if_pos hi, encodeFoldPure_getElem?_outside _ _ hgoodpairs i
        (fun q hq => by have := hwf q.1 (hzipmem q hq); omega),
        List.getElem?_append_left (by omega)]
    · rw [if_neg hi, eq_comm, List.getElem?_eq_none]
      omega
  have hslices := encodeFoldPure_slice _ _ hgoodpairs hpairwise
  rw [decode, hcodeslice, hfind]
  dsimp only
  rw [hdec]
  dsimp only
  rw [decode_template_of_slices _ t.fields args hargs (fun q hq =>
    ⟨(hwf q.1 (hzipmem q hq)).2.1, by have := hwf q.1 (hzipmem q hq); omega,
      hslices q hq⟩)]
  rfl

/-- Witness for `encode_decode_roundtrip`: the two-field demo template with
arguments `[7, 255]` encodes to `"1207FF"` and decodes back to its own
fields. -/
theorem encode_decode_roundtrip_witness :
    ∃ wire, encode_command roundtripTemplate [7, 255] = .ok wire ∧
      decode [roundtripTemplate] wire = some
        ⟨some roundtripTemplate.type,
          (roundtripTemplate.fields.zip [7, 255]).map fun q => (q.1.name, q.2),
          none, none⟩ :=
  encode_decode_roundtrip [roundtripTemplate] roundtripTemplate [7, 255] 3
    (by decide) (by decide) (by decide) (by decide) (by decide) (by decide)
    (by decide) (by decide) (by decide)
    (by simp [roundtripTemplate, List.pairwise_cons])
    (by decide)

/-- C3: for capability counts `maxPrograms` and `maxStations` — the latter
arising as `min(stations.count, 22)` where `stations.count` is four bits
per mask character, hence a multiple of four capped at 22, always even —
one schedule-collection pass issues, in this order, exactly one
controller-settings sub-request, then `maxPrograms` program-info
sub-requests, then `maxPrograms` start-times sub-requests, then exactly
`ceil(maxStations/2)` zone-durations sub-requests; they are sent serially
in list order. -/
theorem schedule_commands_structure (maxPrograms m maxStations : Nat)
    (hcap : maxStations = min (4 * m) 22) :
    scheduleCommands maxPrograms maxStations
      = [0] ++ (List.range maxPrograms).map (fun program => 16 ||| program)
        ++ (List.range maxPrograms).map (fun program => 96 ||| program)
        ++ (List.range ((maxStations + 1) / 2)).map (fun zonePage => 128 ||| zonePage)
    ∧ (scheduleCommands maxPrograms maxStations).length
      = 1 + maxPrograms + maxPrograms + (maxStations + 1) / 2 := by
  have heven : maxStations % 2 = 0 := by omega
  have hround : roundHalfDiv2 maxStations = (maxStations + 1) / 2 := by
    rw [roundHalfDiv2, if_pos heven]
    omega
  constructor
  · rw [scheduleCommands, hround]
  · rw [scheduleCommands, hround]
    simp
    omega

/-- Witness for `schedule_commands_structure`: 3 programs, a 2-character
mask (8 stations). -/
theorem schedule_commands_structure_witness :
    scheduleCommands 3 8
      = [0] ++ (List.range 3).map (fun program => 16 ||| program)
        ++ (List.range 3).map (fun program => 96 ||| program)
        ++ (List.range ((8 + 1) / 2)).map (fun zonePage => 128 ||| zonePage)
    ∧ (scheduleCommands 3 8).length = 1 + 3 + 3 + (8 + 1) / 2 :=
  schedule_commands_structure 3 2 8 (by decide)

/-- C4 counterexample: `decode("F100000000")` against a registry that does
not know `F1` returns `{"data": wireString}` with no `type` key at all:
the result is not tagged `"RawData"`. -/
theorem decode_unregistered_untagged :
    decode demoRegistry wireF1 = some ⟨none, [], none, some wireF1⟩
    ∧ (decode demoRegistry wireF1).bind DecodedMessage.typeTag ≠ some "RawData" := by
  exact ⟨by decide, by decide⟩

/-- C4 (amended): for an unregistered leading wire code, `decode` returns,
without raising, `{"data": wireString}` — carrying the raw wire string but
with no `type` key (so `type` is NOT always present); the `type` key is
present exactly on the registered-code paths, where it holds the
template's logical type name. -/
theorem decode_unregistered_raw :
    (∀ (registry : List CommandTemplate) (data : List Nat),
      lookupByCode registry (data.take 2) = none →
      decode registry data = some ⟨none, [], none, some data⟩)
    ∧ (∀ (registry : List CommandTemplate) (data : List Nat)
        (t : CommandTemplate) (m : DecodedMessage),
      lookupByCode registry (data.take 2) = some t →
      decode registry data = some m → m.typeTag = some t.type) := by
  constructor
  · intro registry data h
    rw [decode, h]
  · intro registry data t m h hm
    rw [decode, h] at hm
    dsimp only at hm
    cases htd : t.decoder
    · rw [htd] at hm
      dsimp only at hm
      rw [Option.map_eq_some'] at hm
      obtain ⟨fs, _, hfs⟩ := hm
      rw [← hfs]
    · rw [htd] at hm
      dsimp only at hm
      rw [Option.map_eq_some'] at hm
      obtain ⟨fr, _, hfr⟩ := hm
      rw [← hfr]

/-- Witness for `decode_unregistered_raw`: the unregistered `"F1..."` wire
string, and the registered `"A0..."` controller-settings response. -/
theorem decode_unregistered_raw_witness :
    decode demoRegistry wireF1 = some ⟨none, [], none, some wireF1⟩
    ∧ (⟨some "RetrieveScheduleResponse", [],
        some (ScheduleFragment.controllerInfo 0 4 0), none⟩ : DecodedMessage).typeTag
      = some demoTemplateA0.type :=
  ⟨decode_unregistered_raw.1 demoRegistry wireF1 (by decide),
   decode_unregistered_raw.2 demoRegistry wireA00 demoTemplateA0
     ⟨some "RetrieveScheduleResponse", [],
       some (ScheduleFragment.controllerInfo 0 4 0), none⟩ (by decide) (by decide)⟩

/-- C5 counterexample: the argument `256` does not fit the two-nibble field
of `overflowTemplate`, yet `encode_command` raises nothing: the full hex
form `"100"` is spliced in and the five-character wire string `"01100"` —
longer than the template's `2*2` nibbles — is returned. -/
theorem encode_overflow_unchecked :
    encode_command overflowTemplate [256] = .ok [0, 1, 1, 0, 0]
    ∧ ¬([0, 1, 1, 0, 0] : List Nat).length = 2 * 2 := by
  exact ⟨by rfl, by decide⟩

/-- C5 (amended): `encode` fails with `TooManyArguments` whenever more
arguments than the template's (truthy) total length are supplied, and with
an encoding error when the template's length is missing or zero; but an
argument that does not fit its field's declared nibble width is NOT
rejected — its full hex form is spliced in, so a wire string of incorrect
length can be returned (see `encode_overflow_unchecked`). -/
theorem encode_error_checks :
    (∀ (t : CommandTemplate) (args : List Nat) (l : Nat),
      t.length = some l → l ≠ 0 → args.length > l →
      encode_command t args = .error .tooManyArguments)
    ∧ (∀ (t : CommandTemplate) (args : List Nat),
      t.length.getD 0 = 0 → encode_command t args = .error .missingLength) := by
  constructor
  · intro t args l hl hl0 hgt
    rw [encode_command.eq_def, hl]
    simp only [Option.getD_some]
    rw [if_neg hl0, if_pos hgt]
  · intro t args h
    rw [encode_command.eq_def]
    show (if t.length.getD 0 = 0 then _ else _) = _
    rw [if_pos h]

/-- Witness for `encode_error_checks`: three arguments against a length-2
template, and a template with no length at all. -/
theorem encode_error_checks_witness :
    encode_command overflowTemplate [1, 2, 3] = .error .tooManyArguments
    ∧ encode_command { overflowTemplate with length := none } []
      = .error .missingLength :=
  ⟨encode_error_checks.1 overflowTemplate [1, 2, 3] 2 (by decide) (by decide) (by decide),
   encode_error_checks.2 { overflowTemplate with length := none } [] (by decide)⟩

/-- C6 counterexample: the sub-command byte of `"A0006000F0FFFFFFFFFFFF"`
is `0x60` — the start-times mask, not the controller-settings sub-command
`0` — so `decode_schedule` yields a program-start-times fragment, not a
`ControllerInfo`. -/
theorem schedule_response_not_controller_info :
    decode_schedule wireA06
      = some (ScheduleFragment.programStartInfo 0 [240, 65535, 65535, 65535])
    ∧ isControllerInfoFrag (decode_schedule wireA06) = false := by
  exact ⟨by decide, by decide⟩

/-- C6 (amended): decoding `"A0006000F0FFFFFFFFFFFF"` yields a
program-start-times fragment for program 0 — sub-command `0x60 | 0` — with
start-time entries `[240, 65535, 65535, 65535]` (04:00 plus three unused
sentinel slots), tagged with the schedule response's type. -/
theorem schedule_response_start_times :
    decode demoRegistry wireA06 = some ⟨some "RetrieveScheduleResponse", [],
      some (ScheduleFragment.programStartInfo 0 [240, 65535, 65535, 65535]), none⟩ := by
  decide

theorem overlapping_cons (e : Timespan) (rest : List Timespan) (f t : Nat) :
    overlapping (e :: rest) f t
      = if e.intersects ⟨f, t⟩ then e :: overlapping rest f t
        else if e.gtLex ⟨f, t⟩ then [] else overlapping rest f t := rfl

/-- After the break point — a non-intersecting event lexicographically past
the query — no lexicographically later well-formed event intersects the
query either. -/
theorem not_intersects_after_break (x e : Timespan) (f t : Nat)
    (hwfx : x.start ≤ x.stop) (hwfe : e.start ≤ e.stop) (hft : f ≤ t)
    (hgt : e.gtLex ⟨f, t⟩) (hni : ¬e.intersects ⟨f, t⟩)
    (hle : e.start < x.start ∨ (e.start = x.start ∧ e.stop ≤ x.stop)) :
    ¬x.intersects ⟨f, t⟩ := by
  simp only [Timespan.intersects, Timespan.gtLex] at *
  omega

/-- C7 counterexample: the merged sequence `[(10,11), (10,10)]` is
non-decreasing in start time and the zero-length event `(10,10)`
intersects the query span `[0, 10)` by `Timespan.intersects`
(`0 < 10 <= 10`), but `overlapping(0, 10)` breaks at `(10,11)` — which
exceeds `(0, 10)` lexicographically without intersecting it — and so
yields nothing instead of the intersecting event behind it. -/
theorem overlapping_start_sorted_incomplete :
    List.Chain' (fun a b : Timespan => a.start ≤ b.start) demoEvents
    ∧ (∀ e ∈ demoEvents, e.start ≤ e.stop)
    ∧ overlapping demoEvents 0 10 = []
    ∧ demoEvents.filter (fun e => decide (e.intersects ⟨0, 10⟩))
      = [⟨10, 10⟩] := by
  refine ⟨by simp [demoEvents, List.chain'_cons], by decide, by decide, by decide⟩

/-- C7 (amended): when the underlying merged event sequence is
non-decreasing in the `(start, end)` lexicographic order that the iterator
actually compares by — not merely non-decreasing in start time — and all
spans are well-formed (`start <= end`, the `Timespan` invariant, also for
the query), `overlapping(from, to)` (end exclusive) yields exactly the
events whose span intersects the query, in chronological order; moreover
events beyond the first one whose start strictly exceeds `to` never
affect the result (early termination). -/
theorem overlapping_lex_sorted :
    (∀ (events : List Timespan) (f t : Nat), f ≤ t →
      (∀ e ∈ events, e.start ≤ e.stop) →
      events.Pairwise (fun a b =>
        a.start < b.start ∨ (a.start = b.start ∧ a.stop ≤ b.stop)) →
      overlapping events f t
        = events.filter (fun e => decide (e.intersects ⟨f, t⟩)))
    ∧ (∀ (pre : List Timespan) (e : Timespan) (suf : List Timespan) (f t : Nat),
      f ≤ t → e.start ≤ e.stop → t < e.start →
      overlapping (pre ++ e :: suf) f t = overlapping (pre ++ [e]) f t) := by
  constructor
  · intro events f t hft hwf hsorted
    induction events with
    | nil => rfl
    | cons a rest ih =>
      rw [List.pairwise_cons] at hsorted
      have hwfa := hwf a (List.mem_cons_self a rest)
      have hwfrest : ∀ e ∈ rest, e.start ≤ e.stop :=
        fun e he => hwf e (List.mem_cons_of_mem a he)
      rw [overlapping_cons]
      by_cases hint : a.intersects ⟨f, t⟩
      · rw [if_pos hint, List.filter_cons_of_pos (by simpa using hint),
          ih hwfrest hsorted.2]
      · rw [if_neg hint, List.filter_cons_of_neg (by simpa using hint)]
        by_cases hgt : a.gtLex ⟨f, t⟩
        · rw [if_pos hgt, eq_comm]
          apply List.filter_eq_nil_iff.mpr
          intro x hx
          simp only [decide_eq_true_eq]
          exact not_intersects_after_break x a f t (hwfrest x hx) hwfa hft hgt hint
            (hsorted.1 x hx)
        · rw [if_neg hgt]
          exact ih hwfrest hsorted.2
  · intro pre e suf f t hft hwfe hgt
    induction pre with
    | nil =>
      have hni : ¬e.intersects ⟨f, t⟩ := by
        simp only [Timespan.intersects]
        omega
      have hg : e.gtLex ⟨f, t⟩ := by
        simp only [Timespan.gtLex]
        omega
      show overlapping (e :: suf) f t = overlapping (e :: []) f t
      rw [overlapping_cons, overlapping_cons, if_neg hni, if_neg hni, if_pos hg,
        if_pos hg]
    | cons p pre' ih =>
      show overlapping (p :: (pre' ++ e :: suf)) f t
        = overlapping (p :: (pre' ++ [e])) f t
      rw [overlapping_cons, overlapping_cons, ih]

/-- Witness for `overlapping_lex_sorted`: a lexicographically sorted pair
of events against `[0, 10)`, and an early-termination instance. -/
theorem overlapping_lex_sorted_witness :
    overlapping [⟨1, 2⟩, ⟨3, 20⟩] 0 10
      = List.filter (fun e => decide (e.intersects ⟨0, 10⟩)) [⟨1, 2⟩, ⟨3, 20⟩]
    ∧ overlapping ([⟨1, 2⟩] ++ (⟨20, 21⟩ : Timespan) :: [⟨22, 23⟩]) 0 10
      = overlapping ([⟨1, 2⟩] ++ [⟨20, 21⟩]) 0 10 :=
  ⟨overlapping_lex_sorted.1 [⟨1, 2⟩, ⟨3, 20⟩] 0 10 (by decide) (by decide)
     (by simp [List.pairwise_cons]),
   overlapping_lex_sorted.2 [⟨1, 2⟩] ⟨20, 21⟩ [⟨22, 23⟩] 0 10 (by decide) (by decide)
     (by decide)⟩

/-- C8: no event generated by a program's recurrence timeline has a start
date within the first `delayDays` calendar days from the rule's anchor
(today's date), whatever the rule type produced as raw occurrences.
`create_recurrence` is modelled from spec §4.5 because it is absent from
the source tree's `timeline.py`. -/
theorem timeline_delay_exclusion (p : Program) (now : Nat)
    (rules : Nat → List Nat) (hstarts : ∀ s ∈ p.starts, s < 1440)
    (e : ProgramEvent) (he : e ∈ p.timeline now rules) :
    ¬(dateOf now ≤ dateOf e.start ∧ dateOf e.start < dateOf now + p.delayDays) := by
  rw [Program.timeline, List.mem_flatten] at he
  obtain ⟨evs, hevs, hein⟩ := he
  rw [List.mem_map] at hevs
  obtain ⟨start, hstart, rfl⟩ := hevs
  rw [create_recurrence, List.mem_map] at hein
  obtain ⟨tt, htt, rfl⟩ := hein
  rw [List.mem_filter] at htt
  have hcond := of_decide_eq_true htt.2
  have hdate : dateOf ((now / 1440) * 1440 + start) = dateOf now := by
    have hs := hstarts start hstart
    rw [dateOf, dateOf]
    omega
  rw [hdate] at hcond
  exact hcond.2

/-- Witness for `timeline_delay_exclusion`: a cyclic program with a 3-day
controller delay and a rule firing 7 days out. -/
theorem timeline_delay_exclusion_witness :
    ¬(dateOf 144500 ≤ dateOf (ProgramEvent.start ⟨0, none, 154320, 154345⟩)
      ∧ dateOf (ProgramEvent.start ⟨0, none, 154320, 154345⟩)
        < dateOf 144500 + Program.delayDays
            ⟨0, ProgramFrequency.CYCLIC, [], some 6, some 2, [240], [(1, 25)],
              some ⟨3, 1, false⟩⟩) :=
  timeline_delay_exclusion
    ⟨0, ProgramFrequency.CYCLIC, [], some 6, some 2, [240], [(1, 25)],
      some ⟨3, 1, false⟩⟩
    144500 (fun d => [d + 10080]) (by decide) ⟨0, none, 154320, 154345⟩ (by decide)

/-- C9: every constructed `Program` — `__post_init__` runs at dataclass
construction time and the model mutates no field afterwards — has an empty
`days_of_week` whenever its frequency is not `CUSTOM`, and a cleared
(absent) `period` whenever its frequency is not `CYCLIC`. -/
theorem program_post_init_invariant (p : Program) :
    ((postInit p).frequency ≠ ProgramFrequency.CUSTOM → (postInit p).daysOfWeek = [])
    ∧ ((postInit p).frequency ≠ ProgramFrequency.CYCLIC
      → (postInit p).period = none) := by
  cases hf : p.frequency <;> simp [postInit, hf]

/-- Witness for `program_post_init_invariant`: an `ODD` program whose
pre-construction dict carries stale `daysOfWeek` and `period` values; both
are cleared. -/
theorem program_post_init_invariant_witness :
    (postInit demoProgramODD).daysOfWeek = []
    ∧ (postInit demoProgramODD).period = none :=
  ⟨(program_post_init_invariant demoProgramODD).1 (by decide),
   (program_post_init_invariant demoProgramODD).2 (by decide)⟩

end PyRainbird
